import Mathlib

/-!
Shallow embedding of the `frame_sampling` package (files
`src/frame_sampling/strategy.py` and `src/frame_sampling/dataset.py`),
together with theorems settling the specification's claims about it.

Modelling conventions:
* `frame.time` (a float, seconds) is modelled as `Rat`.
* A frame's decoded image (`frame.to_image()`) is an abstract `Nat` payload.
* Python exceptions are modelled explicitly: a decoding step either yields a
  frame or raises (`StreamItem`); `av.open` either yields a stream or raises
  (`VideoFile`); a criterion evaluation either returns a `Bool` or raises
  `ZeroDivisionError` (`Option Bool`, `none` = raised).
* File-system side effects (directory creation, frame persistence, clip
  requests handed to ffmpeg) are modelled as explicit logs threaded through
  the computation.
-/

namespace FrameSampling

/-- A decoded video frame: its presentation time in seconds (`frame.time`)
and its decoded image content (`frame.to_image()`), abstracted as `Nat`. -/
structure Frame where
  time : Rat
  image : Nat
deriving DecidableEq, Repr

/-- `VideoFrame.to_image()`: obtain the PIL image of a decoded frame. -/
def Frame.to_image (f : Frame) : Nat :=
  f.image

/-- One step of the enumerated decode stream inside `_sample_single_video`:
either a successfully decoded frame, or an exception (error code) raised
while obtaining that step from the decoder. -/
inductive StreamItem where
  | ok : Frame → StreamItem
  | err : Nat → StreamItem
deriving DecidableEq, Repr

/-- Whether a stream step decoded successfully. -/
def StreamItem.isOk : StreamItem → Bool
  | .ok _ => true
  | .err _ => false

/-- An error reported to `_handle_exceptions`: a decode error carrying its
code, or the `ZeroDivisionError` raised by `default_criteria` when
`sample_rate` is zero. -/
inductive FrameError where
  | decode : Nat → FrameError
  | zeroDivision : FrameError
deriving DecidableEq, Repr

/-- `MinimalSampler` (and the `BaseSampler` dataclass state it inherits):
the single configuration field `sample_rate: int`. -/
structure MinimalSampler where
  sample_rate : Int
deriving DecidableEq, Repr

/-- The dataclass-generated constructor of `BaseSampler`/`MinimalSampler`:
it stores `sample_rate` with no validation whatsoever, so construction never
fails; it is wrapped in `Except` to make that explicit. -/
def MinimalSampler.construct (r : Int) : Except String MinimalSampler :=
  .ok ⟨r⟩

/-- `MinimalSampler.default_criteria`: `not idx % self.sample_rate`.
Python `%` rounds toward negative infinity, i.e. `Int.fmod`; when
`sample_rate` is zero, `idx % 0` raises `ZeroDivisionError` (`none`). -/
def MinimalSampler.default_criteria (s : MinimalSampler) (idx : Nat) : Option Bool :=
  if s.sample_rate = 0 then none
  else some (Int.fmod idx s.sample_rate == 0)

/-- `MinimalSampler._sample_criteria`: apply the default stride criteria. -/
def MinimalSampler.sample_criteria (s : MinimalSampler) (idx : Nat) (_f : Frame) : Option Bool :=
  s.default_criteria idx

/-- `CustomCriteriaSampler`: `sample_rate` plus a caller-supplied predicate
`criteria_func` on the frame's decoded image. -/
structure CustomCriteriaSampler where
  sample_rate : Int
  criteria_func : Nat → Bool

/-- `CustomCriteriaSampler._sample_criteria`:
`self.default_criteria(idx) and self.criteria_func(frame.to_image())`.
If the stride check raises (`none`), the conjunction raises. -/
def CustomCriteriaSampler.sample_criteria (s : CustomCriteriaSampler) (idx : Nat) (f : Frame) :
    Option Bool :=
  (MinimalSampler.default_criteria ⟨s.sample_rate⟩ idx).map
    (fun b => b && s.criteria_func f.to_image)

/-- The per-frame loop of `BaseSampler._sample_single_video`, shared by
`MinimalSampler` and `CustomCriteriaSampler`: repeatedly pull the next
enumerated stream step; on `StopIteration` (end of list) stop; on a decode
error hand it to `_handle_exceptions` and continue (the enumeration index
is not consumed); otherwise run `_process_frame`, which evaluates
`_sample_criteria` and saves the frame when it holds — an exception raised
by the criteria is also handed to `_handle_exceptions` and the loop
continues.  Returns the saved-frame log and the handled-error log. -/
def sample_loop (crit : Nat → Frame → Option Bool) :
    Nat → List StreamItem → List Frame × List FrameError
  | _, [] => ([], [])
  | idx, .err e :: rest =>
      let r := sample_loop crit idx rest
      (r.1, .decode e :: r.2)
  | idx, .ok f :: rest =>
      match crit idx f with
      | none =>
          let r := sample_loop crit (idx + 1) rest
          (r.1, .zeroDivision :: r.2)
      | some true =>
          let r := sample_loop crit (idx + 1) rest
          (f :: r.1, r.2)
      | some false => sample_loop crit (idx + 1) rest

/-- `BaseSampler._sample_single_video` as inherited by `MinimalSampler`. -/
def MinimalSampler.sample_single_video (s : MinimalSampler) (stream : List StreamItem) :
    List Frame × List FrameError :=
  sample_loop s.sample_criteria 0 stream

/-- `BaseSampler._sample_single_video` as inherited by
`CustomCriteriaSampler` (same loop, overridden criteria). -/
def CustomCriteriaSampler.sample_single_video (s : CustomCriteriaSampler)
    (stream : List StreamItem) : List Frame × List FrameError :=
  sample_loop s.sample_criteria 0 stream

/-- `VideoClipSampler`: inherits `sample_rate` and `criteria_func`, and has
the class attribute `min_clip_duration` (default 1 second). -/
structure VideoClipSampler where
  sample_rate : Int
  criteria_func : Nat → Bool
  min_clip_duration : Rat := 1

/-- `VideoClipSampler._sample_criteria`: only the custom predicate, applied
to the frame's image; the stride is ignored and no exception can arise. -/
def VideoClipSampler.sample_criteria (s : VideoClipSampler) (_idx : Nat) (f : Frame) : Bool :=
  s.criteria_func f.to_image

/-- `VideoClipSampler._process_clip`: emit the clip request
`(start_time, end_time)` iff `end_time - start_time >= min_clip_duration`;
sub-threshold clips are silently dropped. -/
def VideoClipSampler.process_clip (s : VideoClipSampler) (start_time end_time : Rat) :
    List (Rat × Rat) :=
  if s.min_clip_duration ≤ end_time - start_time then [(start_time, end_time)] else []

/-- The `for` loop of `VideoClipSampler._sample_single_video`, including the
end-of-stream flush.  State: the optional open-run `start_time` and the last
successfully decoded frame (the value of the loop variable `video_frame`).
This loop has no per-frame exception handling, so a decode error aborts the
whole video: the result's second component is the propagated error code
(`none` on normal completion); the first component is the list of emitted
clip requests, in order. -/
def VideoClipSampler.clip_loop (s : VideoClipSampler) :
    Nat → List StreamItem → Option Rat → Option Frame → List (Rat × Rat) × Option Nat
  | _, [], start_time, last =>
      match start_time, last with
      | some st, some f => (s.process_clip st f.time, none)
      | _, _ => ([], none)
  | _, .err e :: _, _, _ => ([], some e)
  | idx, .ok f :: rest, start_time, _ =>
      if s.sample_criteria idx f then
        s.clip_loop (idx + 1) rest (some (start_time.getD f.time)) (some f)
      else
        match start_time with
        | some st =>
            let r := s.clip_loop (idx + 1) rest none (some f)
            (s.process_clip st f.time ++ r.1, r.2)
        | none => s.clip_loop (idx + 1) rest none (some f)

/-- `VideoClipSampler._sample_single_video`: run the clip loop from the
initial state (`start_time = None`, no frame seen yet). -/
def VideoClipSampler.sample_single_video (s : VideoClipSampler) (stream : List StreamItem) :
    List (Rat × Rat) × Option Nat :=
  s.clip_loop 0 stream none none

/-- A file-system path, as a list of components. -/
abbrev Path := List String

/-- `MinimalSampler._create_subdir_path`: `output_dir / str(idx)`. -/
def create_subdir_path (output_dir : Path) (idx : Nat) : Path :=
  output_dir ++ [toString idx]

/-- A video file as seen by `av.open`: opening either succeeds, yielding the
decoded frame stream, or raises (error code). -/
abbrev VideoFile := Except Nat (List StreamItem)

/-- Outcome of a `sample` run: either normal completion, or the run aborted
because `av.open` raised (that exception is not caught anywhere in `sample`).
Both constructors carry the directories existing at that point and the list
of per-video work performed: `(video_idx, saved frames, handled errors)`. -/
inductive SampleOutcome where
  | ok : List Path → List (Nat × List Frame × List FrameError) → SampleOutcome
  | openFailed : Nat → List Path → List (Nat × List Frame × List FrameError) → SampleOutcome
deriving DecidableEq, Repr

/-- The directories existing when a `sample` run ended. -/
def SampleOutcome.fsAfter : SampleOutcome → List Path
  | .ok fs _ => fs
  | .openFailed _ fs _ => fs

/-- The per-video work performed by a `sample` run. -/
def SampleOutcome.workDone : SampleOutcome → List (Nat × List Frame × List FrameError)
  | .ok _ w => w
  | .openFailed _ _ w => w

/-- The `for` loop of `BaseSampler.sample` (with `MinimalSampler`'s
`_create_subdir_path` and `_sample_single_video`): for each enumerated
video, compute its subdirectory; if `exist_ok` or the subdirectory does not
exist, create it (`mkdir`, modelled as inserting it into the directory log)
and sample the video — an `av.open` failure aborts the whole run — else
skip the video entirely. -/
def MinimalSampler.sample_aux (s : MinimalSampler) (output_dir : Path) (exist_ok : Bool) :
    Nat → List VideoFile → List Path → List (Nat × List Frame × List FrameError) → SampleOutcome
  | _, [], fs, work => .ok fs work
  | video_idx, v :: rest, fs, work =>
      let sample_subdir := create_subdir_path output_dir video_idx
      if exist_ok || !(fs.contains sample_subdir) then
        let fs' := if fs.contains sample_subdir then fs else sample_subdir :: fs
        match v with
        | .error e => .openFailed e fs' work
        | .ok stream =>
            s.sample_aux output_dir exist_ok (video_idx + 1) rest fs'
              (work ++ [(video_idx, s.sample_single_video stream)])
      else
        s.sample_aux output_dir exist_ok (video_idx + 1) rest fs work

/-- `BaseSampler.sample` for a `MinimalSampler`, starting from video index 0
with an empty work log, against the given pre-existing directories. -/
def MinimalSampler.sample (s : MinimalSampler) (video_dataset : List VideoFile)
    (output_dir : Path) (exist_ok : Bool) (fs : List Path) : SampleOutcome :=
  s.sample_aux output_dir exist_ok 0 video_dataset fs []

/-- The file system as seen by `dataset.py`: existence of a path, and the
result of `Path.glob` for a pattern under a directory. -/
structure FSModel where
  pathExists : Path → Bool
  glob : Path → String → List Path

/-- The failure raised by `Dataset._dataset_exists` when the data directory
does not exist. -/
inductive DatasetError where
  | notFound : DatasetError
deriving DecidableEq, Repr

/-- A constructed `VideoDataset`: its data path and its materialized index. -/
structure VideoDataset where
  data_path : Path
  index : List Path
deriving DecidableEq, Repr

/-- `VideoDataset.file_extensions`. -/
def video_file_extensions : List String :=
  ["*.mp4", "*.avi", "*.mkv", "*.mov", "*.webm"]

/-- `Dataset.__post_init__` for `VideoDataset`: first `_dataset_exists`
(fails when the root is missing, before any scan), then eagerly materialize
the index by globbing each extension in order. -/
def VideoDataset.construct (fs : FSModel) (data_dir : Path) : Except DatasetError VideoDataset :=
  if fs.pathExists data_dir then
    .ok ⟨data_dir, (video_file_extensions.map (fun ext => fs.glob data_dir ext)).flatten⟩
  else
    .error .notFound

/-! ### Helper lemmas about the clip-sampler loop -/

/-- With no open run, the clip loop does not depend on the remembered last
frame: it is only consulted at end of stream when a run is open. -/
lemma clip_loop_last_irrel (s : VideoClipSampler) (items : List StreamItem) :
    ∀ (idx : Nat) (l1 l2 : Option Frame),
      s.clip_loop idx items none l1 = s.clip_loop idx items none l2 := by
  induction items with
  | nil => intro idx l1 l2; cases l1 <;> cases l2 <;> rfl
  | cons x rest ih =>
      intro idx l1 l2
      cases x with
      | err e => rfl
      | ok f =>
          by_cases h : s.sample_criteria idx f = true
          · simp only [VideoClipSampler.clip_loop, h, if_true]
          · simp only [VideoClipSampler.clip_loop, h, if_false]

/-- Frames failing the predicate are skipped while no run is open. -/
lemma clip_loop_skip_false (s : VideoClipSampler) (pre : List Frame)
    (rest : List StreamItem) :
    ∀ (idx : Nat) (last : Option Frame),
      (∀ f ∈ pre, s.criteria_func f.image = false) →
      s.clip_loop idx (pre.map .ok ++ rest) none last
        = s.clip_loop (idx + pre.length) rest none none := by
  induction pre with
  | nil =>
      intro idx last _
      simpa using clip_loop_last_irrel s rest idx last none
  | cons f pre' ih =>
      intro idx last hpre
      have hf : s.sample_criteria idx f = false := by
        simp [VideoClipSampler.sample_criteria, Frame.to_image, hpre f (by simp)]
      simp only [List.map_cons, List.cons_append, VideoClipSampler.clip_loop, hf,
        Bool.false_eq_true, if_false, List.append_eq]
      rw [ih (idx + 1) (some f) (fun g hg => hpre g (by simp [hg]))]
      congr 1
      simp only [List.length_cons]
      omega

/-- Frames satisfying the predicate extend an open run, updating only the
remembered last frame. -/
lemma clip_loop_true_run (s : VideoClipSampler) (mid : List Frame)
    (rest : List StreamItem) :
    ∀ (idx : Nat) (t : Rat) (lf : Frame),
      (∀ f ∈ mid, s.criteria_func f.image = true) →
      s.clip_loop idx (mid.map .ok ++ rest) (some t) (some lf)
        = s.clip_loop (idx + mid.length) rest (some t) (some (mid.getLastD lf)) := by
  induction mid with
  | nil => intro idx t lf _; simp [List.getLastD]
  | cons f mid' ih =>
      intro idx t lf hmid
      have hf : s.sample_criteria idx f = true := by
        simp [VideoClipSampler.sample_criteria, Frame.to_image, hmid f (by simp)]
      simp only [List.map_cons, List.cons_append, VideoClipSampler.clip_loop, hf, if_true,
        Option.getD_some, List.append_eq]
      rw [ih (idx + 1) t f (fun g hg => hmid g (by simp [hg]))]
      rw [List.getLastD_cons]
      congr 1
      simp only [List.length_cons]
      omega

/-- A tail of predicate-failing frames with no open run emits nothing. -/
lemma clip_loop_false_tail (s : VideoClipSampler) (post : List Frame) :
    ∀ (idx : Nat) (last : Option Frame),
      (∀ f ∈ post, s.criteria_func f.image = false) →
      s.clip_loop idx (post.map .ok) none last = ([], none) := by
  induction post with
  | nil => intro idx last _; cases last <;> rfl
  | cons f post' ih =>
      intro idx last hpost
      have hf : s.sample_criteria idx f = false := by
        simp [VideoClipSampler.sample_criteria, Frame.to_image, hpost f (by simp)]
      simp only [List.map_cons, VideoClipSampler.clip_loop, hf, Bool.false_eq_true, if_false]
      exact ih (idx + 1) (some f) (fun g hg => hpost g (by simp [hg]))

/-- Claim C1: for a video whose predicate holds exactly on one contiguous
interior run — frames `pre` (all failing), then `m :: mid'` (all matching),
then `p :: post'` (all failing) — the clip sampler emits exactly one clip
request `(m.time, p.time)`: the first matching frame's timestamp and the
first non-matching frame's timestamp after the run, provided
`p.time - m.time ≥ min_clip_duration`; otherwise it emits none.  The run
completes without error. -/
theorem clip_sampler_single_interior_run (s : VideoClipSampler)
    (pre mid' post' : List Frame) (m p : Frame)
    (hpre : ∀ f ∈ pre, s.criteria_func f.image = false)
    (hm : s.criteria_func m.image = true)
    (hmid : ∀ f ∈ mid', s.criteria_func f.image = true)
    (hp : s.criteria_func p.image = false)
    (hpost : ∀ f ∈ post', s.criteria_func f.image = false) :
    s.sample_single_video ((pre ++ (m :: mid') ++ (p :: post')).map .ok)
      = (if s.min_clip_duration ≤ p.time - m.time then [(m.time, p.time)] else [],
         none) := by
  unfold VideoClipSampler.sample_single_video
  rw [List.append_assoc, List.map_append]
  rw [clip_loop_skip_false s pre _ 0 none hpre]
  simp only [List.map_cons, List.cons_append]
  have hm' : s.sample_criteria (0 + pre.length) m = true := by
    simp [VideoClipSampler.sample_criteria, Frame.to_image, hm]
  simp only [VideoClipSampler.clip_loop, hm', if_true, Option.getD_none]
  rw [List.map_append]
  rw [clip_loop_true_run s mid' _ _ m.time m hmid]
  simp only [List.map_cons]
  have hp' : s.sample_criteria (0 + pre.length + 1 + mid'.length) p = false := by
    simp [VideoClipSampler.sample_criteria, Frame.to_image, hp]
  simp only [VideoClipSampler.clip_loop, hp', Bool.false_eq_true, if_false]
  rw [clip_loop_false_tail s post' _ (some p) hpost]
  simp [VideoClipSampler.process_clip]

/-- Claim C1 witness: a 10-frame video with timestamps `0,…,9` and predicate
true exactly on indices 3..7 emits the single clip `(3, 8)`. -/
theorem clip_sampler_single_interior_run_witness :
    (VideoClipSampler.mk 1 (fun n => decide (3 ≤ n ∧ n ≤ 7)) 1).sample_single_video
        (((List.range 10).map (fun (n : Nat) => Frame.mk (n : Rat) n)).map .ok)
      = ([((3 : Rat), (8 : Rat))], none) := by
  have h := clip_sampler_single_interior_run
    (VideoClipSampler.mk 1 (fun n => decide (3 ≤ n ∧ n ≤ 7)) 1)
    [Frame.mk 0 0, Frame.mk 1 1, Frame.mk 2 2]
    [Frame.mk 4 4, Frame.mk 5 5, Frame.mk 6 6, Frame.mk 7 7]
    [Frame.mk 9 9] (Frame.mk 3 3) (Frame.mk 8 8)
    (by decide) (by decide) (by decide) (by decide) (by decide)
  have hl : ((List.range 10).map (fun (n : Nat) => Frame.mk (n : Rat) n))
      = [Frame.mk 0 0, Frame.mk 1 1, Frame.mk 2 2]
          ++ (Frame.mk 3 3 :: [Frame.mk 4 4, Frame.mk 5 5, Frame.mk 6 6, Frame.mk 7 7])
          ++ (Frame.mk 8 8 :: [Frame.mk 9 9]) := by
    decide
  rw [hl, h]
  norm_num

/-- Claim C3: when the predicate still holds at end of stream — frames
`pre` (all failing) then `m :: mid'` (all matching, through the last frame)
— the open run is flushed with `end_time` equal to the timestamp of the
last frame seen (`(mid'.getLastD m).time`, the last frame's own timestamp),
subject to the same minimum-duration gate. -/
theorem clip_sampler_flush_at_eos (s : VideoClipSampler)
    (pre mid' : List Frame) (m : Frame)
    (hpre : ∀ f ∈ pre, s.criteria_func f.image = false)
    (hm : s.criteria_func m.image = true)
    (hmid : ∀ f ∈ mid', s.criteria_func f.image = true) :
    s.sample_single_video ((pre ++ (m :: mid')).map .ok)
      = (if s.min_clip_duration ≤ (mid'.getLastD m).time - m.time
         then [(m.time, (mid'.getLastD m).time)] else [],
         none) := by
  unfold VideoClipSampler.sample_single_video
  rw [List.map_append]
  rw [clip_loop_skip_false s pre _ 0 none hpre]
  simp only [List.map_cons]
  have hm' : s.sample_criteria (0 + pre.length) m = true := by
    simp [VideoClipSampler.sample_criteria, Frame.to_image, hm]
  simp only [VideoClipSampler.clip_loop, hm', if_true, Option.getD_none]
  rw [show (mid'.map (StreamItem.ok)) = mid'.map (StreamItem.ok) ++ [] by simp]
  rw [clip_loop_true_run s mid' _ _ m.time m hmid]
  simp [VideoClipSampler.clip_loop, VideoClipSampler.process_clip]

/-- Claim C3 witness: predicate true on indices 5..9 of a 10-frame video
(timestamps `0,…,9`, no trailing false frame) emits the clip `(5, 9)` —
`end_time` is the last frame's own timestamp 9, not 10. -/
theorem clip_sampler_flush_at_eos_witness :
    (VideoClipSampler.mk 1 (fun n => decide (5 ≤ n)) 1).sample_single_video
        (((List.range 10).map (fun (n : Nat) => Frame.mk (n : Rat) n)).map .ok)
      = ([((5 : Rat), (9 : Rat))], none) := by
  have h := clip_sampler_flush_at_eos
    (VideoClipSampler.mk 1 (fun n => decide (5 ≤ n)) 1)
    [Frame.mk 0 0, Frame.mk 1 1, Frame.mk 2 2, Frame.mk 3 3, Frame.mk 4 4]
    [Frame.mk 6 6, Frame.mk 7 7, Frame.mk 8 8, Frame.mk 9 9] (Frame.mk 5 5)
    (by decide) (by decide) (by decide)
  have hl : ((List.range 10).map (fun (n : Nat) => Frame.mk (n : Rat) n))
      = [Frame.mk 0 0, Frame.mk 1 1, Frame.mk 2 2, Frame.mk 3 3, Frame.mk 4 4]
          ++ (Frame.mk 5 5
                :: [Frame.mk 6 6, Frame.mk 7 7, Frame.mk 8 8, Frame.mk 9 9]) := by
    decide
  rw [hl, h]
  norm_num

/-- Invariant carried by the clip loop over an error-free stream with
non-decreasing timestamps: every emitted clip passes the duration gate and
starts no earlier than the lower bound `lb`, and successive emitted clips
are chained (`end_time` of one ≤ `start_time` of the next). -/
lemma clip_loop_invariant (s : VideoClipSampler) (frames : List Frame) :
    ∀ (idx : Nat) (lb : Rat) (start_time : Option Rat) (last : Option Frame),
      frames.Pairwise (fun f g => f.time ≤ g.time) →
      (∀ f ∈ frames, lb ≤ f.time) →
      (∀ t, start_time = some t →
        lb ≤ t ∧ ∃ lf, last = some lf ∧ t ≤ lf.time ∧ ∀ f ∈ frames, lf.time ≤ f.time) →
      (∀ c ∈ (s.clip_loop idx (frames.map .ok) start_time last).1,
          s.min_clip_duration ≤ c.2 - c.1 ∧ lb ≤ c.1) ∧
        List.Chain' (fun a b => a.2 ≤ b.1)
          (s.clip_loop idx (frames.map .ok) start_time last).1 := by
  induction frames with
  | nil =>
      intro idx lb st last hmono hlb hst
      cases st with
      | none =>
          cases last <;>
            simp [VideoClipSampler.clip_loop]
      | some t =>
          obtain ⟨hlt, lf, hlf, htlf, _⟩ := hst t rfl
          subst hlf
          simp only [List.map_nil, VideoClipSampler.clip_loop]
          unfold VideoClipSampler.process_clip
          by_cases hg : s.min_clip_duration ≤ lf.time - t


          · simp only [hg, if_true]
            refine ⟨?_, by simp⟩
            intro c hc
            simp only [List.mem_singleton] at hc
            subst hc
            exact ⟨hg, hlt⟩
          · simp [hg]
  | cons f rest ih =>
      intro idx lb st last hmono hlb hst
      rw [List.pairwise_cons] at hmono
      by_cases hf : s.sample_criteria idx f = true
      · simp only [List.map_cons, VideoClipSampler.clip_loop, hf, if_true]
        refine ih (idx + 1) lb (some (st.getD f.time)) (some f) hmono.2
          (fun g hg => hlb g (by simp [hg])) ?_
        intro t ht
        simp only [Option.some_inj] at ht
        subst ht
        cases st with
        | none =>
            refine ⟨hlb f (by simp), f, rfl, le_refl _, fun g hg => hmono.1 g hg⟩
        | some t0 =>
            obtain ⟨hlt0, lf, hlf, htlf, hup⟩ := hst t0 rfl
            refine ⟨hlt0, f, rfl, le_trans htlf (hup f (by simp)), fun g hg => hmono.1 g hg⟩
      · cases st with
        | none =>
            simp only [List.map_cons, VideoClipSampler.clip_loop, hf,
              Bool.false_eq_true, if_false]
            exact ih (idx + 1) lb none (some f) hmono.2
              (fun g hg => hlb g (by simp [hg])) (by simp)
        | some t =>
            obtain ⟨hlt, lf, hlf, htlf, hup⟩ := hst t rfl
            simp only [List.map_cons, VideoClipSampler.clip_loop, hf,
              Bool.false_eq_true, if_false]
            have hrec := ih (idx + 1) f.time none (some f) hmono.2
              (fun g hg => hmono.1 g hg) (by simp)
            unfold VideoClipSampler.process_clip
            by_cases hg : s.min_clip_duration ≤ f.time - t
            · simp only [hg, if_true, List.singleton_append]
              constructor
              · intro c hc
                simp only [List.mem_cons] at hc
                rcases hc with hc | hc
                · subst hc
                  exact ⟨hg, hlt⟩
                · exact ⟨(hrec.1 c hc).1,
                    le_trans (hlb f (by simp)) ((hrec.1 c hc).2)⟩
              · rw [List.chain'_cons']
                refine ⟨?_, hrec.2⟩
                intro b hb
                have hbmem : b ∈ (s.clip_loop (idx + 1) (rest.map .ok) none (some f)).1 :=
                  List.mem_of_mem_head? hb
                exact (hrec.1 b hbmem).2
            · simp only [hg, if_false, List.nil_append]
              refine ⟨?_, hrec.2⟩
              intro c hc
              exact ⟨(hrec.1 c hc).1, le_trans (hlb f (by simp)) ((hrec.1 c hc).2)⟩

/-- Claim C4: over any error-free video whose frame timestamps are
non-decreasing, every clip interval emitted by the clip sampler satisfies
`end_time - start_time ≥ min_clip_duration`, and successive emitted
intervals are non-overlapping and time-ordered: each interval's start is at
least the previous interval's end. -/
theorem clip_intervals_invariant (s : VideoClipSampler) (frames : List Frame)
    (hmono : frames.Pairwise (fun f g => f.time ≤ g.time)) :
    (∀ c ∈ (s.sample_single_video (frames.map .ok)).1,
        s.min_clip_duration ≤ c.2 - c.1) ∧
      List.Chain' (fun a b => a.2 ≤ b.1) (s.sample_single_video (frames.map .ok)).1 := by
  unfold VideoClipSampler.sample_single_video
  cases frames with
  | nil => simp [VideoClipSampler.clip_loop]
  | cons f rest =>
      have hlb : ∀ g ∈ f :: rest, f.time ≤ g.time := by
        intro g hg
        rcases List.mem_cons.1 hg with hg | hg
        · subst hg; exact le_refl _
        · exact (List.pairwise_cons.1 hmono).1 g hg
      have h := clip_loop_invariant s (f :: rest) 0 f.time none none hmono hlb (by simp)
      exact ⟨fun c hc => (h.1 c hc).1, h.2⟩

/-- Claim C4 witness: predicate true on images equal to 1 over six frames at
times `0,…,5` with image pattern `1,1,0,1,1,0`; the emitted intervals
satisfy the duration gate and are chained. -/
theorem clip_intervals_invariant_witness :
    [Frame.mk 0 1, Frame.mk 1 1, Frame.mk 2 0,
        Frame.mk 3 1, Frame.mk 4 1, Frame.mk 5 0].Pairwise
        (fun f g => f.time ≤ g.time) ∧
      ((∀ c ∈ ((VideoClipSampler.mk 1 (fun n => n == 1) 1).sample_single_video
            ([Frame.mk 0 1, Frame.mk 1 1, Frame.mk 2 0,
                Frame.mk 3 1, Frame.mk 4 1, Frame.mk 5 0].map .ok)).1,
          (VideoClipSampler.mk 1 (fun n => n == 1) 1).min_clip_duration ≤ c.2 - c.1) ∧
        List.Chain' (fun a b => a.2 ≤ b.1)
          ((VideoClipSampler.mk 1 (fun n => n == 1) 1).sample_single_video
            ([Frame.mk 0 1, Frame.mk 1 1, Frame.mk 2 0,
                Frame.mk 3 1, Frame.mk 4 1, Frame.mk 5 0].map .ok)).1) :=
  ⟨by decide,
   clip_intervals_invariant (VideoClipSampler.mk 1 (fun n => n == 1) 1)
     [Frame.mk 0 1, Frame.mk 1 1, Frame.mk 2 0,
        Frame.mk 3 1, Frame.mk 4 1, Frame.mk 5 0] (by decide)⟩

/-! ### Per-frame error handling -/

/-- In the inherited per-frame loop, error steps do not affect which frames
are persisted: the saved-frame log equals the one obtained from the
successfully decoded steps alone. -/
lemma sample_loop_saved_unaffected (crit : Nat → Frame → Option Bool) :
    ∀ (k : Nat) (stream : List StreamItem),
      (sample_loop crit k stream).1
        = (sample_loop crit k (stream.filter StreamItem.isOk)).1 := by
  intro k stream
  induction stream generalizing k with
  | nil => rfl
  | cons x rest ih =>
      cases x with
      | err e =>
          simp only [List.filter_cons, StreamItem.isOk, Bool.false_eq_true, if_false,
            sample_loop]
          exact ih k
      | ok f =>
          simp only [List.filter_cons, StreamItem.isOk, if_true, sample_loop]
          cases h : crit k f with
          | none => simp only [ih (k + 1)]
          | some b => cases b <;> simp only [ih (k + 1)]

/-- In the inherited per-frame loop, every decode error is reported to
`_handle_exceptions`. -/
lemma sample_loop_decode_error_handled (crit : Nat → Frame → Option Bool) :
    ∀ (k : Nat) (stream : List StreamItem) (e : Nat),
      StreamItem.err e ∈ stream →
        FrameError.decode e ∈ (sample_loop crit k stream).2 := by
  intro k stream
  induction stream generalizing k with
  | nil => intro e he; cases he
  | cons x rest ih =>
      intro e he
      cases x with
      | err e' =>
          rcases List.mem_cons.1 he with he | he
          · injection he with he'
            subst he'
            simp [sample_loop]
          · simp only [sample_loop, List.mem_cons]
            exact Or.inr (ih k e he)
      | ok f =>
          have he' : StreamItem.err e ∈ rest := by
            rcases List.mem_cons.1 he with he | he
            · cases he
            · exact he
          simp only [sample_loop]
          cases h : crit k f with
          | none => exact List.mem_cons_of_mem _ (ih (k + 1) e he')
          | some b => cases b <;> simp only [] <;> exact ih (k + 1) e he'

/-- The clip-sampler loop stops at the first decode error: everything after
it is never examined. -/
lemma clip_loop_stops_at_first_error (s : VideoClipSampler) :
    ∀ (pre post : List StreamItem) (e idx : Nat) (start_time : Option Rat)
      (last : Option Frame),
      s.clip_loop idx (pre ++ .err e :: post) start_time last
        = s.clip_loop idx (pre ++ [.err e]) start_time last := by
  intro pre
  induction pre with
  | nil => intro post e idx st last; rfl
  | cons x pre' ih =>
      intro post e idx st last
      cases x with
      | err e' => rfl
      | ok f =>
          by_cases h : s.sample_criteria idx f = true
          · simp only [List.cons_append, VideoClipSampler.clip_loop, h, if_true]
            exact ih post e (idx + 1) _ _
          · simp only [List.cons_append, VideoClipSampler.clip_loop, h,
              Bool.false_eq_true, if_false, List.append_eq]
            cases st with
            | none => exact ih post e (idx + 1) none (some f)
            | some t => rw [ih post e (idx + 1) none (some f)]

/-- Claim C2 counterexample: for the clip-sampler variant a single bad frame
aborts the rest of the video.  With an always-true predicate and a decode
error at the second step, the run stops with the propagated error and emits
nothing, although the successfully decoded steps alone would have produced
the clip `(0, 3)`. -/
theorem clip_sampler_frame_error_aborts_counterexample :
    (VideoClipSampler.mk 1 (fun _ => true) 1).sample_single_video
        [.ok (Frame.mk 0 0), .err 5, .ok (Frame.mk 1 0), .ok (Frame.mk 2 0),
          .ok (Frame.mk 3 0)]
      = ([], some 5)
    ∧ (VideoClipSampler.mk 1 (fun _ => true) 1).sample_single_video
        ([.ok (Frame.mk 0 0), .err 5, .ok (Frame.mk 1 0), .ok (Frame.mk 2 0),
            .ok (Frame.mk 3 0)].filter StreamItem.isOk)
      = ([((0 : Rat), (3 : Rat))], none) := by
  refine ⟨rfl, ?_⟩
  norm_num [VideoClipSampler.sample_single_video, VideoClipSampler.clip_loop,
    VideoClipSampler.sample_criteria, VideoClipSampler.process_clip, Frame.to_image,
    StreamItem.isOk, List.filter_cons]

/-- Claim C2 as amended: in the per-frame loop shared by the minimal and
predicate-augmented samplers, a bad frame is reported to the error handler
and the loop continues — error steps do not affect which frames are
persisted, and every decode error is handed to `_handle_exceptions`.  The
clip sampler's overriding loop, however, has no per-frame error handling:
it stops at the first decode error and everything after it is never
examined. -/
theorem frame_error_isolation_amended :
    (∀ (crit : Nat → Frame → Option Bool) (k : Nat) (stream : List StreamItem),
        (sample_loop crit k stream).1
          = (sample_loop crit k (stream.filter StreamItem.isOk)).1)
      ∧ (∀ (crit : Nat → Frame → Option Bool) (k : Nat) (stream : List StreamItem)
          (e : Nat), StreamItem.err e ∈ stream →
            FrameError.decode e ∈ (sample_loop crit k stream).2)
      ∧ ∀ (s : VideoClipSampler) (pre post : List StreamItem) (e idx : Nat)
          (start_time : Option Rat) (last : Option Frame),
          s.clip_loop idx (pre ++ .err e :: post) start_time last
            = s.clip_loop idx (pre ++ [.err e]) start_time last :=
  ⟨sample_loop_saved_unaffected, sample_loop_decode_error_handled,
   clip_loop_stops_at_first_error⟩

/-- Claim C2 amended-claim witness, at a concrete sampler and stream with a
decode error in the middle. -/
theorem frame_error_isolation_amended_witness :
    ((sample_loop (fun i _ => some (i == 0)) 0
          [.ok (Frame.mk 0 0), .err 7, .ok (Frame.mk 1 1)]).1
        = (sample_loop (fun i _ => some (i == 0)) 0
            ([.ok (Frame.mk 0 0), .err 7, .ok (Frame.mk 1 1)].filter
              StreamItem.isOk)).1)
      ∧ (StreamItem.err 7 ∈
            ([.ok (Frame.mk 0 0), .err 7, .ok (Frame.mk 1 1)] : List StreamItem)
          ∧ FrameError.decode 7 ∈ (sample_loop (fun i _ => some (i == 0)) 0
              [.ok (Frame.mk 0 0), .err 7, .ok (Frame.mk 1 1)]).2)
      ∧ (VideoClipSampler.mk 1 (fun _ => true) 1).clip_loop 0
            ([.ok (Frame.mk 0 0)] ++ .err 7 :: [.ok (Frame.mk 1 1)]) none none
          = (VideoClipSampler.mk 1 (fun _ => true) 1).clip_loop 0
              ([.ok (Frame.mk 0 0)] ++ [.err 7]) none none :=
  ⟨frame_error_isolation_amended.1 (fun i _ => some (i == 0)) 0
      [.ok (Frame.mk 0 0), .err 7, .ok (Frame.mk 1 1)],
   ⟨by decide,
    frame_error_isolation_amended.2.1 (fun i _ => some (i == 0)) 0
      [.ok (Frame.mk 0 0), .err 7, .ok (Frame.mk 1 1)] 7 (by decide)⟩,
   frame_error_isolation_amended.2.2 (VideoClipSampler.mk 1 (fun _ => true) 1)
     [.ok (Frame.mk 0 0)] [.ok (Frame.mk 1 1)] 7 0 none none⟩

/-! ### Interval samplers -/

/-- Python `%` (floor mod, `Int.fmod`) on a natural dividend and a natural
divisor is `Nat` mod. -/
lemma fmod_natCast (i n : Nat) : Int.fmod i n = ((i % n : Nat) : Int) := by
  cases i with
  | zero => simp [Int.fmod]
  | succ m => rfl

/-- A natural number cast to `Int` tests equal to zero iff the number does. -/
lemma natCast_beq_zero (n : Nat) : ((n : Int) == 0) = (n == 0) := by
  by_cases h : n = 0
  · subst h; rfl
  · rw [Bool.eq_iff_iff]
    simp only [beq_iff_eq]
    exact_mod_cast Iff.rfl

/-- On an error-free stream with a criterion that never raises, the shared
per-frame loop saves exactly the frames whose enumerated index satisfies the
criterion, in order, and handles no errors. -/
lemma sample_loop_all_ok (crit : Nat → Frame → Option Bool) (frames : List Frame) :
    ∀ k : Nat, (∀ i f, crit i f ≠ none) →
      sample_loop crit k (frames.map .ok)
        = (((List.enumFrom k frames).filter
              (fun p => (crit p.1 p.2).getD false)).map Prod.snd, []) := by
  induction frames with
  | nil => intro k _; rfl
  | cons f rest ih =>
      intro k htot
      simp only [List.map_cons, sample_loop, List.enumFrom_cons, List.filter_cons]
      cases h : crit k f with
      | none => exact absurd h (htot k f)
      | some b =>
          cases b with
          | false =>
              simp only [h, Option.getD_some, Bool.false_eq_true, if_false]
              exact ih (k + 1) htot
          | true =>
              simp only [h, Option.getD_some, if_true, List.map_cons]
              rw [ih (k + 1) htot]

/-- Claim C5: for `sample_rate = r ≥ 1` over an error-free stream, the
fixed-rate sampler persists exactly the frames whose stream index `i`
satisfies `i % r == 0`, in order, and no others. -/
theorem minimal_sampler_fixed_rate (r : Int) (hr : 1 ≤ r) (frames : List Frame) :
    MinimalSampler.sample_single_video ⟨r⟩ (frames.map .ok)
      = (((List.enumFrom 0 frames).filter
            (fun p => p.1 % r.toNat == 0)).map Prod.snd, []) := by
  obtain ⟨n, rfl⟩ : ∃ n : Nat, r = (n : Int) :=
    ⟨r.toNat, (Int.toNat_of_nonneg (by omega)).symm⟩
  have hn : ¬((n : Int) = 0) := by omega
  unfold MinimalSampler.sample_single_video
  rw [sample_loop_all_ok _ _ 0 (fun i f => by
    unfold MinimalSampler.sample_criteria MinimalSampler.default_criteria
    rw [if_neg hn]
    simp)]
  have hfilt : (List.enumFrom 0 frames).filter
        (fun p => (MinimalSampler.sample_criteria ⟨(n : Int)⟩ p.1 p.2).getD false)
      = (List.enumFrom 0 frames).filter (fun p => p.1 % ((n : Int)).toNat == 0) := by
    apply List.filter_congr
    intro p _
    unfold MinimalSampler.sample_criteria MinimalSampler.default_criteria
    rw [if_neg hn]
    simp only [Option.getD_some, Int.toNat_natCast]
    rw [fmod_natCast]
    exact natCast_beq_zero _
  rw [hfilt]

/-- Claim C5 witness: `sample_rate = 2` over five frames persists exactly
the frames at indices 0, 2 and 4. -/
theorem minimal_sampler_fixed_rate_witness :
    (1 ≤ (2 : Int))
      ∧ MinimalSampler.sample_single_video ⟨2⟩
          ([Frame.mk 0 10, Frame.mk 1 11, Frame.mk 2 12, Frame.mk 3 13,
              Frame.mk 4 14].map .ok)
        = (((List.enumFrom 0 [Frame.mk 0 10, Frame.mk 1 11, Frame.mk 2 12,
              Frame.mk 3 13, Frame.mk 4 14]).filter
              (fun p => p.1 % (2 : Int).toNat == 0)).map Prod.snd, []) :=
  ⟨by decide,
   minimal_sampler_fixed_rate 2 (by decide)
     [Frame.mk 0 10, Frame.mk 1 11, Frame.mk 2 12, Frame.mk 3 13, Frame.mk 4 14]⟩

/-- On an error-free stream with `sample_rate = r ≥ 1`, the
predicate-augmented sampler persists exactly the frames satisfying both the
stride condition and the predicate on the frame's image. -/
lemma custom_sampler_filter (r : Int) (hr : 1 ≤ r) (pred : Nat → Bool)
    (frames : List Frame) :
    CustomCriteriaSampler.sample_single_video ⟨r, pred⟩ (frames.map .ok)
      = (((List.enumFrom 0 frames).filter
            (fun p => (p.1 % r.toNat == 0) && pred p.2.image)).map Prod.snd, []) := by
  obtain ⟨n, rfl⟩ : ∃ n : Nat, r = (n : Int) :=
    ⟨r.toNat, (Int.toNat_of_nonneg (by omega)).symm⟩
  have hn : ¬((n : Int) = 0) := by omega
  unfold CustomCriteriaSampler.sample_single_video
  rw [sample_loop_all_ok _ _ 0 (fun i f => by
    unfold CustomCriteriaSampler.sample_criteria MinimalSampler.default_criteria
    rw [if_neg hn]
    simp)]
  have hfilt : (List.enumFrom 0 frames).filter
        (fun p => (CustomCriteriaSampler.sample_criteria ⟨(n : Int), pred⟩ p.1 p.2).getD
          false)
      = (List.enumFrom 0 frames).filter
          (fun p => (p.1 % ((n : Int)).toNat == 0) && pred p.2.image) := by
    apply List.filter_congr
    intro p _
    unfold CustomCriteriaSampler.sample_criteria MinimalSampler.default_criteria
    rw [if_neg hn]
    simp only [Int.toNat_natCast, Frame.to_image]
    rw [fmod_natCast, natCast_beq_zero]
    simp
  rw [hfilt]

/-- Claim C6: over an error-free stream with `sample_rate = r ≥ 1`, the
predicate-augmented sampler persists a frame iff both the stride condition
`i % r == 0` and the caller-supplied predicate on the frame's image hold;
in particular, with a constantly false predicate it persists nothing. -/
theorem custom_sampler_stride_and_predicate (r : Int) (hr : 1 ≤ r)
    (pred : Nat → Bool) (frames : List Frame) :
    (CustomCriteriaSampler.sample_single_video ⟨r, pred⟩ (frames.map .ok)
        = (((List.enumFrom 0 frames).filter
              (fun p => (p.1 % r.toNat == 0) && pred p.2.image)).map Prod.snd, []))
      ∧ CustomCriteriaSampler.sample_single_video ⟨r, fun _ => false⟩ (frames.map .ok)
        = ([], []) := by
  refine ⟨custom_sampler_filter r hr pred frames, ?_⟩
  rw [custom_sampler_filter r hr (fun _ => false) frames]
  simp

/-- Claim C6 witness: `sample_rate = 1` with predicate "image is even" over
four frames, and the same with the constantly false predicate. -/
theorem custom_sampler_stride_and_predicate_witness :
    (1 ≤ (1 : Int))
      ∧ (CustomCriteriaSampler.sample_single_video ⟨1, fun m => m % 2 == 0⟩
            ([Frame.mk 0 2, Frame.mk 1 3, Frame.mk 2 4, Frame.mk 3 5].map .ok)
          = (((List.enumFrom 0 [Frame.mk 0 2, Frame.mk 1 3, Frame.mk 2 4,
                Frame.mk 3 5]).filter
                (fun p => (p.1 % (1 : Int).toNat == 0)
                  && (fun m => m % 2 == 0) p.2.image)).map Prod.snd, []))
        ∧ CustomCriteriaSampler.sample_single_video ⟨1, fun _ => false⟩
            ([Frame.mk 0 2, Frame.mk 1 3, Frame.mk 2 4, Frame.mk 3 5].map .ok)
          = ([], []) :=
  ⟨by decide,
   custom_sampler_stride_and_predicate 1 (by decide) (fun m => m % 2 == 0)
     [Frame.mk 0 2, Frame.mk 1 3, Frame.mk 2 4, Frame.mk 3 5]⟩

/-! ### The `sample` orchestration -/

/-- `List.contains` on paths decides membership. -/
lemma path_contains_iff (fs : List Path) (p : Path) : fs.contains p = true ↔ p ∈ fs := by
  simp [List.contains, List.elem_iff]

/-- One step of `sample_aux` on a video that opens successfully. -/
lemma sample_aux_cons_ok (s : MinimalSampler) (out : Path) (ex : Bool) (idx : Nat)
    (stream : List StreamItem) (rest : List VideoFile) (fs : List Path)
    (w : List (Nat × List Frame × List FrameError)) :
    s.sample_aux out ex idx (.ok stream :: rest) fs w
      = if ex || !(fs.contains (create_subdir_path out idx)) then
          s.sample_aux out ex (idx + 1) rest
            (if fs.contains (create_subdir_path out idx) then fs
              else create_subdir_path out idx :: fs)
            (w ++ [(idx, s.sample_single_video stream)])
        else s.sample_aux out ex (idx + 1) rest fs w := rfl

/-- One step of `sample_aux` on a video that fails to open. -/
lemma sample_aux_cons_error (s : MinimalSampler) (out : Path) (ex : Bool) (idx : Nat)
    (e : Nat) (rest : List VideoFile) (fs : List Path)
    (w : List (Nat × List Frame × List FrameError)) :
    s.sample_aux out ex idx (.error e :: rest) fs w
      = if ex || !(fs.contains (create_subdir_path out idx)) then
          .openFailed e
            (if fs.contains (create_subdir_path out idx) then fs
              else create_subdir_path out idx :: fs) w
        else s.sample_aux out ex (idx + 1) rest fs w := rfl

/-- The freshly ensured subdirectory is in the directory log afterwards. -/
lemma mem_fs_insert_self (fs : List Path) (p : Path) :
    p ∈ (if fs.contains p then fs else p :: fs) := by
  by_cases h : fs.contains p = true
  · rw [if_pos h]
    exact (path_contains_iff fs p).1 h
  · rw [if_neg h]
    exact List.mem_cons_self _ _

/-- Ensuring a subdirectory preserves the existing directories. -/
lemma subset_fs_insert (fs : List Path) (p : Path) :
    fs ⊆ (if fs.contains p then fs else p :: fs) := by
  by_cases h : fs.contains p = true
  · rw [if_pos h]
    exact fun a ha => ha
  · rw [if_neg h]
    exact List.subset_cons_self _ _

/-- Directories only accumulate during a `sample` run. -/
lemma sample_aux_fs_mono (s : MinimalSampler) (out : Path) (ex : Bool)
    (vs : List VideoFile) :
    ∀ (idx : Nat) (fs : List Path) (w : List (Nat × List Frame × List FrameError)),
      fs ⊆ (s.sample_aux out ex idx vs fs w).fsAfter := by
  induction vs with
  | nil => intro idx fs w; exact fun a ha => ha
  | cons v rest ih =>
      intro idx fs w
      cases v with
      | error e =>
          rw [sample_aux_cons_error]
          by_cases hc : (ex || !(fs.contains (create_subdir_path out idx))) = true
          · rw [if_pos hc]
            exact subset_fs_insert fs _
          · rw [if_neg hc]
            exact ih (idx + 1) fs w
      | ok stream =>
          rw [sample_aux_cons_ok]
          by_cases hc : (ex || !(fs.contains (create_subdir_path out idx))) = true
          · rw [if_pos hc]
            exact (subset_fs_insert fs _).trans (ih (idx + 1) _ _)
          · rw [if_neg hc]
            exact ih (idx + 1) fs w

/-- With `exist_ok = False`, a run in which every video's subdirectory
already exists skips every video: no directory is created and no video is
opened or processed. -/
lemma sample_aux_skip_all (s : MinimalSampler) (out : Path)
    (vs : List VideoFile) :
    ∀ (idx : Nat) (fs : List Path) (w : List (Nat × List Frame × List FrameError)),
      (∀ j, j < vs.length → create_subdir_path out (idx + j) ∈ fs) →
      s.sample_aux out false idx vs fs w = .ok fs w := by
  induction vs with
  | nil => intro idx fs w _; rfl
  | cons v rest ih =>
      intro idx fs w h
      have h0 : fs.contains (create_subdir_path out idx) = true := by
        rw [path_contains_iff]
        exact h 0 (by simp only [List.length_cons]; omega)
      have hcond : ¬((false || !(fs.contains (create_subdir_path out idx))) = true) := by
        intro hcon
        rw [Bool.false_or, h0] at hcon
        simp at hcon
      have hrest : ∀ j, j < rest.length → create_subdir_path out (idx + 1 + j) ∈ fs := by
        intro j hj
        have heq : idx + 1 + j = idx + (j + 1) := by omega
        rw [heq]
        exact h (j + 1) (by simp only [List.length_cons]; omega)
      cases v with
      | error e =>
          rw [sample_aux_cons_error, if_neg hcond]
          exact ih (idx + 1) fs w hrest
      | ok stream =>
          rw [sample_aux_cons_ok, if_neg hcond]
          exact ih (idx + 1) fs w hrest

/-- After a `sample` run that completes normally, every processed or skipped
video's subdirectory exists. -/
lemma sample_aux_all_subdirs (s : MinimalSampler) (out : Path) (ex : Bool)
    (vs : List VideoFile) :
    ∀ (idx : Nat) (fs fs1 : List Path)
      (w w1 : List (Nat × List Frame × List FrameError)),
      s.sample_aux out ex idx vs fs w = .ok fs1 w1 →
      ∀ j, j < vs.length → create_subdir_path out (idx + j) ∈ fs1 := by
  induction vs with
  | nil => intro idx fs fs1 w w1 _ j hj; cases hj
  | cons v rest ih =>
      intro idx fs fs1 w w1 hrun j hj
      have hshift : ∀ fs' w',
          s.sample_aux out ex (idx + 1) rest fs' w' = .ok fs1 w1 →
          create_subdir_path out idx ∈ fs' →
          create_subdir_path out (idx + j) ∈ fs1 := by
        intro fs' w' hrun' hmem
        cases j with
        | zero =>
            have hsub := sample_aux_fs_mono s out ex rest (idx + 1) fs' w'
            rw [hrun'] at hsub
            simpa using hsub hmem
        | succ j' =>
            have heq : idx + (j' + 1) = idx + 1 + j' := by omega
            rw [heq]
            exact ih (idx + 1) fs' fs1 w' w1 hrun' j'
              (by simp only [List.length_cons] at hj; omega)
      cases v with
      | error e =>
          rw [sample_aux_cons_error] at hrun
          by_cases hc : (ex || !(fs.contains (create_subdir_path out idx))) = true
          · rw [if_pos hc] at hrun
            cases hrun
          · rw [if_neg hc] at hrun
            have hm : fs.contains (create_subdir_path out idx) = true := by
              cases hex : ex with
              | true => rw [hex] at hc; simp at hc
              | false => rw [hex] at hc; simpa using hc
            exact hshift fs w hrun ((path_contains_iff fs _).1 hm)
      | ok stream =>
          rw [sample_aux_cons_ok] at hrun
          by_cases hc : (ex || !(fs.contains (create_subdir_path out idx))) = true
          · rw [if_pos hc] at hrun
            exact hshift _ _ hrun (mem_fs_insert_self fs _)
          · rw [if_neg hc] at hrun
            have hm : fs.contains (create_subdir_path out idx) = true := by
              cases hex : ex with
              | true => rw [hex] at hc; simp at hc
              | false => rw [hex] at hc; simpa using hc
            exact hshift fs w hrun ((path_contains_iff fs _).1 hm)

/-- With `exist_ok = False`, a video whose subdirectory already exists is
never worked on: no work entry for its index is ever produced, whether the
run completes or aborts. -/
lemma sample_aux_no_work_for_existing (s : MinimalSampler) (out : Path)
    (vs : List VideoFile) :
    ∀ (idx : Nat) (fs : List Path) (w : List (Nat × List Frame × List FrameError))
      (i : Nat), create_subdir_path out i ∈ fs →
      (∀ entry ∈ w, entry.1 ≠ i) →
      ∀ entry ∈ (s.sample_aux out false idx vs fs w).workDone, entry.1 ≠ i := by
  induction vs with
  | nil => intro idx fs w i _ hw entry he; exact hw entry he
  | cons v rest ih =>
      intro idx fs w i hifs hw
      by_cases hc : ((false || !(fs.contains (create_subdir_path out idx))) = true)
      · have hne : create_subdir_path out idx ∉ fs := by
          intro hmem
          rw [Bool.false_or, Bool.not_eq_eq_eq_not, Bool.not_true] at hc
          rw [← path_contains_iff fs _, hc] at hmem
          cases hmem
        have hidx : idx ≠ i := fun hh => hne (hh ▸ hifs)
        cases v with
        | error e =>
            rw [sample_aux_cons_error, if_pos hc]
            intro entry he
            exact hw entry he
        | ok stream =>
            rw [sample_aux_cons_ok, if_pos hc]
            refine ih (idx + 1) _ _ i (subset_fs_insert fs _ hifs) ?_
            intro entry he
            rcases List.mem_append.1 he with he | he
            · exact hw entry he
            · simp only [List.mem_singleton] at he
              subst he
              exact hidx
      · cases v with
        | error e =>
            rw [sample_aux_cons_error, if_neg hc]
            exact ih (idx + 1) fs w i hifs hw
        | ok stream =>
            rw [sample_aux_cons_ok, if_neg hc]
            exact ih (idx + 1) fs w i hifs hw

/-- Running `sample_aux` over a concatenated dataset first runs the prefix;
if that completes normally, the suffix continues from its final state. -/
lemma sample_aux_append (s : MinimalSampler) (out : Path) (ex : Bool)
    (vs1 vs2 : List VideoFile) :
    ∀ (idx : Nat) (fs fs1 : List Path)
      (w w1 : List (Nat × List Frame × List FrameError)),
      s.sample_aux out ex idx vs1 fs w = .ok fs1 w1 →
      s.sample_aux out ex idx (vs1 ++ vs2) fs w
        = s.sample_aux out ex (idx + vs1.length) vs2 fs1 w1 := by
  induction vs1 with
  | nil =>
      intro idx fs fs1 w w1 h
      injection h with h1 h2
      subst h1; subst h2
      rfl
  | cons v rest ih =>
      intro idx fs fs1 w w1 h
      have hlen : idx + (v :: rest).length = idx + 1 + rest.length := by
        simp only [List.length_cons]
        omega
      rw [hlen]
      cases v with
      | error e =>
          rw [sample_aux_cons_error] at h
          rw [List.cons_append, sample_aux_cons_error]
          by_cases hc : (ex || !(fs.contains (create_subdir_path out idx))) = true
          · rw [if_pos hc] at h
            cases h
          · rw [if_neg hc] at h
            rw [if_neg hc]
            exact ih (idx + 1) fs fs1 w w1 h
      | ok stream =>
          rw [sample_aux_cons_ok] at h
          rw [List.cons_append, sample_aux_cons_ok]
          by_cases hc : (ex || !(fs.contains (create_subdir_path out idx))) = true
          · rw [if_pos hc] at h
            rw [if_pos hc]
            exact ih (idx + 1) _ fs1 _ w1 h
          · rw [if_neg hc] at h
            rw [if_neg hc]
            exact ih (idx + 1) fs fs1 w w1 h

/-- Claim C7: with `exist_ok = False`, `sample` skips entirely every video
whose output subdirectory already exists — no work entry is produced for it
— and if every video's subdirectory pre-exists, the run performs no work at
all and creates nothing; consequently a second `sample` call with
`exist_ok = False` after a completed run performs no work (every video is
skipped). -/
theorem sample_exist_ok_false_idempotent (s : MinimalSampler)
    (ds : List VideoFile) (out : Path) (fs0 : List Path) :
    (∀ i, create_subdir_path out i ∈ fs0 →
        ∀ entry ∈ (s.sample ds out false fs0).workDone, entry.1 ≠ i)
      ∧ ((∀ i, i < ds.length → create_subdir_path out i ∈ fs0) →
          s.sample ds out false fs0 = .ok fs0 [])
      ∧ ∀ fs1 w1, s.sample ds out false fs0 = .ok fs1 w1 →
          s.sample ds out false fs1 = .ok fs1 [] := by
  refine ⟨?_, ?_, ?_⟩
  · intro i hi
    exact sample_aux_no_work_for_existing s out ds 0 fs0 [] i hi (by simp)
  · intro h
    exact sample_aux_skip_all s out ds 0 fs0 [] (fun j hj => by simpa using h j hj)
  · intro fs1 w1 h
    refine sample_aux_skip_all s out ds 0 fs1 [] (fun j hj => ?_)
    simpa using sample_aux_all_subdirs s out false ds 0 fs0 fs1 [] w1 h j hj

/-- Claim C7 witness: one video whose subdirectory `"0"` already exists is
skipped, and a prior completed run makes the second run a no-op. -/
theorem sample_exist_ok_false_idempotent_witness :
    (∀ entry ∈ ((MinimalSampler.mk 1).sample [Except.ok []] [] false
        [[toString 0]]).workDone, entry.1 ≠ 0)
      ∧ (MinimalSampler.mk 1).sample [Except.ok []] [] false [[toString 0]]
          = .ok [[toString 0]] []
      ∧ (MinimalSampler.mk 1).sample [Except.ok []] [] false
            ((MinimalSampler.mk 1).sample [Except.ok []] [] false []).fsAfter
          = .ok ((MinimalSampler.mk 1).sample [Except.ok []] [] false []).fsAfter [] := by
  refine ⟨?_, ?_, ?_⟩
  · exact (sample_exist_ok_false_idempotent (MinimalSampler.mk 1) [Except.ok []] []
      [[toString 0]]).1 0 (by decide)
  · exact (sample_exist_ok_false_idempotent (MinimalSampler.mk 1) [Except.ok []] []
      [[toString 0]]).2.1 (by decide)
  · exact (sample_exist_ok_false_idempotent (MinimalSampler.mk 1) [Except.ok []] []
      []).2.2 [[toString 0]] [(0, [], [])] (by decide)

/-- Claim C10: the output subdirectory is created before the video is
opened.  If the videos before position `k = pre.length` all process
normally (final state `fsk`, work `wk`) and video `k`'s subdirectory does
not yet exist, then when video `k` fails to open the run aborts with the
open error, with video `k`'s subdirectory already created (it heads the
directory log) and no work entry for video `k`; and any subsequent
`sample` call with `exist_ok = False` against the resulting directories
skips video `k` entirely (produces no work entry for it), as if it had
been fully sampled. -/
theorem subdir_created_before_open (s : MinimalSampler) (out : Path)
    (fs0 fsk : List Path) (pre post : List VideoFile) (e : Nat)
    (wk : List (Nat × List Frame × List FrameError))
    (h1 : s.sample pre out false fs0 = .ok fsk wk)
    (h2 : create_subdir_path out pre.length ∉ fsk) :
    s.sample (pre ++ .error e :: post) out false fs0
        = .openFailed e (create_subdir_path out pre.length :: fsk) wk
      ∧ ∀ ds' : List VideoFile,
          ∀ entry ∈ (s.sample ds' out false
              (create_subdir_path out pre.length :: fsk)).workDone,
            entry.1 ≠ pre.length := by
  constructor
  · unfold MinimalSampler.sample at h1 ⊢
    rw [sample_aux_append s out false pre (.error e :: post) 0 fs0 fsk [] wk h1]
    have h0 : (0 : Nat) + pre.length = pre.length := by omega
    rw [h0, sample_aux_cons_error]
    have hm : fsk.contains (create_subdir_path out pre.length) = false := by
      rw [Bool.eq_false_iff]
      intro hcon
      exact h2 ((path_contains_iff fsk _).1 hcon)
    rw [hm]
    simp
  · intro ds'
    exact sample_aux_no_work_for_existing s out ds' 0 _ [] pre.length
      (List.mem_cons_self _ _) (by simp)

/-- Claim C10 witness: with an empty prefix and a video that fails to open,
the aborted run leaves the video's subdirectory behind, and a rerun of the
same dataset skips that video. -/
theorem subdir_created_before_open_witness :
    ((MinimalSampler.mk 1).sample [] [] false [] = .ok [] []
        ∧ create_subdir_path [] 0 ∉ ([] : List Path))
      ∧ (MinimalSampler.mk 1).sample ([] ++ .error 3 :: []) [] false []
          = .openFailed 3 [create_subdir_path [] 0] []
      ∧ ∀ entry ∈ ((MinimalSampler.mk 1).sample ([] ++ .error 3 :: []) [] false
          [create_subdir_path [] 0]).workDone, entry.1 ≠ 0 := by
  have h := subdir_created_before_open (MinimalSampler.mk 1) [] [] [] [] [.error 3] 3 []
    (by decide) (by decide)
  exact ⟨⟨by decide, by decide⟩, h.1, h.2 ([] ++ .error 3 :: [])⟩

/-! ### Construction-time validation of `sample_rate` and the dataset root -/

/-- Claim C8 counterexample: `sample_rate = 0` is not rejected at
construction — the dataclass constructor stores it unvalidated — and
instead the criterion raises `ZeroDivisionError` at its first use. -/
theorem sample_rate_not_validated_counterexample :
    MinimalSampler.construct 0 = .ok ⟨0⟩
      ∧ MinimalSampler.default_criteria ⟨0⟩ 0 = none :=
  ⟨rfl, rfl⟩

/-- Claim C8 as amended: construction never validates `sample_rate` — every
integer `r ≤ 0` is accepted and stored — and the stride criterion raises
(`none`) exactly when `sample_rate = 0` (a `ZeroDivisionError` at first
use); a negative `sample_rate` is never rejected at all. -/
theorem sample_rate_validation_amended (r : Int) (hr : r ≤ 0) :
    MinimalSampler.construct r = .ok ⟨r⟩
      ∧ ∀ idx : Nat, (MinimalSampler.default_criteria ⟨r⟩ idx = none ↔ r = 0) := by
  refine ⟨rfl, ?_⟩
  intro idx
  unfold MinimalSampler.default_criteria
  by_cases h : r = 0 <;> simp [h]

/-- Claim C8 amended-claim witness at `sample_rate = -2`: construction
succeeds and the criterion does not raise. -/
theorem sample_rate_validation_amended_witness :
    ((-2 : Int) ≤ 0)
      ∧ MinimalSampler.construct (-2) = .ok ⟨-2⟩
      ∧ ∀ idx : Nat, (MinimalSampler.default_criteria ⟨-2⟩ idx = none ↔ (-2 : Int) = 0) :=
  ⟨by decide, (sample_rate_validation_amended (-2) (by decide)).1,
   (sample_rate_validation_amended (-2) (by decide)).2⟩

/-- Claim C9: if the root directory does not exist, constructing the video
dataset fails with the not-found error, before any scan result is exposed
(the error carries no index). -/
theorem dataset_construct_missing_root (fs : FSModel) (data_dir : Path)
    (h : fs.pathExists data_dir = false) :
    VideoDataset.construct fs data_dir = .error .notFound := by
  unfold VideoDataset.construct
  rw [h]
  simp

/-- Claim C9 witness: on a file system with no paths, construction fails
with the not-found error. -/
theorem dataset_construct_missing_root_witness :
    (FSModel.mk (fun _ => false) (fun _ _ => [])).pathExists ["missing"] = false
      ∧ VideoDataset.construct (FSModel.mk (fun _ => false) (fun _ _ => []))
          ["missing"] = .error .notFound :=
  ⟨rfl, dataset_construct_missing_root (FSModel.mk (fun _ => false) (fun _ _ => []))
    ["missing"] rfl⟩

end FrameSampling
